import Mathlib

/-!
Shallow embedding of the bloxd-movie texture indexing and color-matching
engine (src/3_bloxelizer.js: static bloxelizer, GIF bloxelizer, texture
indexer; src/generate_included_blockids.js: companion block-id list
generator), together with proofs of the specification's claims.

Modelling conventions:
* JS numbers used as integers become `ℕ`/`ℤ`; the exact rational value of a
  division is used where JS computes a float quotient; `Math.sqrt` becomes
  `Real.sqrt` (idealized real arithmetic in place of IEEE doubles).
* A color is either an opaque RGB triple or the synthetic "#transparent"
  token; `hexToRgb` returns `null` exactly on "#transparent", so histogram
  color keys are modelled directly as `Option Rgb` (`none` = transparent).
* `searchDepth` may be `null` (JS `?? Infinity`): modelled as `Option ℕ`
  with `none` meaning unlimited depth.
* Parallel arrays `colorHexes`/`colorPixelCounts` are traversed in lockstep
  in the source; they are zipped here, and theorems that depend on the
  histogram carry the well-formedness hypothesis that the two arrays have
  equal length (true of every record the indexer produces).
-/

structure Rgb where
  r : ℤ
  g : ℤ
  b : ℤ
deriving DecidableEq

/-- `colorDistance`: Euclidean RGB distance, `sqrt(Δr² + Δg² + Δb²)`. -/
noncomputable def colorDistance (rgb1 rgb2 : Rgb) : ℝ :=
  Real.sqrt (((rgb1.r - rgb2.r) * (rgb1.r - rgb2.r) +
      (rgb1.g - rgb2.g) * (rgb1.g - rgb2.g) +
      (rgb1.b - rgb2.b) * (rgb1.b - rgb2.b) : ℤ) : ℝ)

/-- JS `Math.round` on a non-negative exact quotient: round half up. -/
def jsRound (q : ℚ) : ℤ := ⌊q + 1 / 2⌋

/-- A deduplicated texture record as produced by the indexer and consumed by
the matching engine.  `colorHexes`/`colorPixelCounts` are the parallel
histogram arrays (sorted by descending count in real data), `blockIds` the
ascending list of owning block ids. -/
structure Texture where
  textureId : ℕ
  atlasFileIndex : ℕ
  textureIndexOnAtlas : ℕ
  colorHexes : List (Option Rgb)
  colorPixelCounts : List ℕ
  colorCount : ℕ
  hasTransparency : Bool
  blockIds : List ℕ
deriving DecidableEq

/-- The histogram entries as (color key, pixel count) pairs, in order. -/
def Texture.hist (t : Texture) : List (Option Rgb × ℕ) :=
  t.colorHexes.zip t.colorPixelCounts

/-- The `if (rgb)` guard of the source loops: keep only entries whose key is
an actual color (drop "#transparent", whose `hexToRgb` is `null`). -/
def keptColorEntries (l : List (Option Rgb × ℕ)) : List (Rgb × ℕ) :=
  l.filterMap fun e => e.1.map fun rgb => (rgb, e.2)

/-- The `limit = Math.min(depth, texture.colorHexes.length)` cap of the
`calculatePerceivedColor` loop: the histogram restricted to its top `depth`
entries (`take` already caps at the list length). -/
def histLimited (texture : Texture) (depth : Option ℕ) : List (Option Rgb × ℕ) :=
  match depth with
  | none => texture.hist
  | some n => texture.hist.take n

/-- `calculatePerceivedColor(texture, depth)`: weighted mean color of the
top `depth` histogram entries (all of them when `depth` is unlimited),
ignoring transparent entries; `none` when the considered weight is zero.
Channel means are rounded with JS `Math.round`. -/
def calculatePerceivedColor (texture : Texture) (depth : Option ℕ) : Option Rgb :=
  let kept := keptColorEntries (histLimited texture depth)
  let totalR : ℤ := (kept.map fun e => e.1.r * (e.2 : ℤ)).sum
  let totalG : ℤ := (kept.map fun e => e.1.g * (e.2 : ℤ)).sum
  let totalB : ℤ := (kept.map fun e => e.1.b * (e.2 : ℤ)).sum
  let totalPixels : ℕ := (kept.map fun e => e.2).sum
  if totalPixels = 0 then none
  else some ⟨jsRound ((totalR : ℚ) / (totalPixels : ℚ)),
    jsRound ((totalG : ℚ) / (totalPixels : ℚ)),
    jsRound ((totalB : ℚ) / (totalPixels : ℚ))⟩

/-- `calculateColorVariance(texture)`: 0 for `colorCount <= 1`; otherwise the
histogram-count-weighted average Euclidean distance of each opaque color to
the full-depth perceived (mean) color. -/
noncomputable def calculateColorVariance (texture : Texture) : ℝ :=
  if texture.colorCount ≤ 1 then 0
  else
    match calculatePerceivedColor texture none with
    | none => 0
    | some meanColor =>
      let kept := keptColorEntries texture.hist
      let totalWeightedDistance : ℝ :=
        (kept.map fun e => colorDistance e.1 meanColor * (e.2 : ℝ)).sum
      let totalPixels : ℕ := (kept.map fun e => e.2).sum
      if totalPixels = 0 then 0
      else totalWeightedDistance / (totalPixels : ℝ)

/-- A prepared candidate: a palette texture together with its precomputed
perceived color (`{ textureInfo, perceivedColor }` in the source). -/
structure Candidate where
  textureInfo : Texture
  perceivedColor : Rgb
deriving DecidableEq

/-- The configuration fields the matching engine reads (`CONFIG`).  `none`
plays the role of JS `null` ("unlimited"). -/
structure Config where
  faceDirection : String
  maxVariance : Option ℚ
  searchDepth : Option ℕ
  maxColorCount : Option ℕ
  allowTransparency : Bool
  textureSwitchThreshold : ℚ
deriving DecidableEq

/-- The persisted index artifact, restricted to the fields the matching
engine reads: `texture_palette` and `face_index` (the latter a face-keyed
map of color-keyed texture-id lists, modelled as association lists). -/
structure TextureData where
  texture_palette : List Texture
  face_index : List (String × List (String × List ℕ))
deriving DecidableEq

/-- `new Set(Object.values(faceIndex).flat())`: the texture ids valid for a
face, as the flattened values of its color-keyed index (a list used only for
membership, mirroring the JS `Set`). -/
def validTextureIdsForFace (faceIndex : List (String × List ℕ)) : List ℕ :=
  (faceIndex.map fun e => e.2).flatten

open Classical in
/-- The per-texture body of the `loadAndPrepareCandidates` loop: `none` when
one of the `continue` guards fires or the perceived color is `null`, and the
pushed candidate otherwise. -/
noncomputable def keepTexture (cfg : Config) (validIds : List ℕ) (texture : Texture) :
    Option Candidate :=
  if texture.textureId ∉ validIds then none
  else if (match cfg.maxColorCount with
    | some m => texture.colorCount > m
    | none => False) then none
  else if !cfg.allowTransparency && texture.hasTransparency then none
  else if (match cfg.maxVariance with
    | some v => calculateColorVariance texture > (v : ℝ)
    | none => False) then none
  else (calculatePerceivedColor texture cfg.searchDepth).map fun pc =>
    ⟨texture, pc⟩

/-- The candidate list built by the `loadAndPrepareCandidates` loop for a
given valid-id set. -/
noncomputable def filterCandidates (cfg : Config) (validIds : List ℕ)
    (palette : List Texture) : List Candidate :=
  palette.filterMap (keepTexture cfg validIds)

/-- `loadAndPrepareCandidates(textureData)`: error when the face direction is
missing from the index or the filter leaves no candidate; otherwise the
non-empty candidate list. -/
noncomputable def loadAndPrepareCandidates (cfg : Config) (textureData : TextureData) :
    Except String (List Candidate) :=
  match textureData.face_index.lookup cfg.faceDirection with
  | none => .error "Face direction not found in index file."
  | some faceIndex =>
    let candidates := filterCandidates cfg (validTextureIdsForFace faceIndex)
      textureData.texture_palette
    if candidates = [] then
      .error "No candidate textures found with the specified filters."
    else .ok candidates

open Classical in
/-- The shared scan of both `findBestMatch` loops: fold over the candidates
keeping `(bestMatch, minDistance)`; the `none` state stands for the JS
initial `(null, Infinity)` pair, for which the `distance < minDistance` test
always succeeds. -/
noncomputable def findBestAux (pixelColor : Rgb) :
    List Candidate → Option (Candidate × ℝ) → Option (Candidate × ℝ)
  | [], st => st
  | candidate :: rest, st =>
    let distance := colorDistance pixelColor candidate.perceivedColor
    match st with
    | none => findBestAux pixelColor rest (some (candidate, distance))
    | some (bestMatch, minDistance) =>
      if distance < minDistance then
        findBestAux pixelColor rest (some (candidate, distance))
      else
        findBestAux pixelColor rest (some (bestMatch, minDistance))

/-- The `(bestMatch, minDistance)` pair after scanning the whole list. -/
noncomputable def findBestPair (pixelColor : Rgb) (candidates : List Candidate) :
    Option (Candidate × ℝ) :=
  findBestAux pixelColor candidates none

/-- `findBestMatch(pixelColor, candidates)` of the static bloxelizer:
`bestMatch ? bestMatch.textureInfo : null`. -/
noncomputable def findBestMatch (pixelColor : Rgb) (candidates : List Candidate) :
    Option Texture :=
  match findBestPair pixelColor candidates with
  | none => none
  | some (bestMatch, _) => some bestMatch.textureInfo

open Classical in
/-- `findBestMatch(pixelColor, candidates, previousTextureId)` of the GIF
bloxelizer, with the hysteresis rule; `thr` is
`CONFIG.textureSwitchThreshold`. -/
noncomputable def findBestMatchSeq (thr : ℚ) (pixelColor : Rgb)
    (candidates : List Candidate) (previousTextureId : Option ℕ) : Option Texture :=
  match findBestPair pixelColor candidates with
  | none => none
  | some (bestOverallMatch, minDistance) =>
    match previousTextureId with
    | none => some bestOverallMatch.textureInfo
    | some pid =>
      if bestOverallMatch.textureInfo.textureId = pid then
        some bestOverallMatch.textureInfo
      else
        match candidates.find? fun c => c.textureInfo.textureId = pid with
        | none => some bestOverallMatch.textureInfo
        | some previousCandidate =>
          let previousMatchDistance :=
            colorDistance pixelColor previousCandidate.perceivedColor
          let improvement := previousMatchDistance - minDistance
          if improvement > (thr : ℝ) then some bestOverallMatch.textureInfo
          else some previousCandidate.textureInfo

/-- `CONFIG.textureSwitchThreshold` of the GIF bloxelizer. -/
def textureSwitchThreshold : ℚ := 15

/-- Per-pixel choices of one processed frame: `null` = no match. -/
abbrev ChoiceGrid := List (List (Option ℕ))

/-- The per-cell block id of `generateBlueprintFiles`: 0 unless the cell
holds a texture id whose palette entry exists and has a non-empty
`blockIds`, in which case `blockIds[0]`.  The cell is `none` when the grid
row is too short (JS `undefined`, which fails the `texture` lookup and also
yields 0) and `some none` for an in-range `null` cell. -/
def cellBlockId (texturePalette : List Texture) (cell : Option (Option ℕ)) : ℕ :=
  match cell with
  | some (some textureId) =>
    match texturePalette.get? textureId with
    | some texture =>
      match texture.blockIds with
      | [] => 0
      | b :: _ => b
    | none => 0
  | _ => 0

def UNICODE_PRIVATE_USE_START : ℕ := 0xE000

/-- The pure content of `generateBlueprintFiles`: `none` when the grid has
height 0 (the early return writes no files); otherwise the row-major code
point sequence of the symbol string together with the `{width, height}`
metadata.  Each row is read at the x-positions `0 ≤ x < width` with
`width = choicesGrid[0].length`, exactly as the source's double loop. -/
def generateBlueprint (choicesGrid : ChoiceGrid) (texturePalette : List Texture) :
    Option (List ℕ × ℕ × ℕ) :=
  match choicesGrid with
  | [] => none
  | row0 :: _ =>
    let width := row0.length
    let height := choicesGrid.length
    let symbols := (choicesGrid.map fun row =>
      (List.range width).map fun x =>
        UNICODE_PRIVATE_USE_START + cellBlockId texturePalette (row.get? x)).flatten
    some (symbols, width, height)

/-- The choice-grid part of `processImageFrame`: one output cell per input
pixel, holding the texture id chosen by the sequence matcher (with the
previous frame's choice at the same coordinate as history), or `null` when
the matcher returns no texture. -/
noncomputable def processFrameChoices (thr : ℚ) (candidates : List Candidate)
    (previousFrameChoices : Option ChoiceGrid) (pixels : List (List Rgb)) :
    ChoiceGrid :=
  (pixels.enum).map fun ⟨y, row⟩ =>
    (row.enum).map fun ⟨x, pixelRGBA⟩ =>
      let previousChoiceId : Option ℕ :=
        match previousFrameChoices with
        | none => none
        | some grid => ((grid.get? y).bind fun r => r.get? x).join
      (findBestMatchSeq thr pixelRGBA candidates previousChoiceId).map
        fun t => t.textureId

/-- `pat.isPrefixOf`-style check on character lists, for `String.includes`. -/
def charsStartWith : List Char → List Char → Bool
  | [], _ => true
  | _ :: _, [] => false
  | p :: ps, c :: cs => p = c && charsStartWith ps cs

/-- Substring containment on character lists. -/
def charsContain (pat : List Char) : List Char → Bool
  | [] => charsStartWith pat []
  | c :: cs => charsStartWith pat (c :: cs) || charsContain pat cs

/-- `blockData.name.includes("Slab")`. -/
def containsSlab (name : String) : Bool :=
  charsContain "Slab".data name.data

/-- `parseInt(blockId, 10)` on the canonical decimal keys of the block map
(a digit fold; non-numeric keys, which would give JS `NaN`, are out of
model). -/
def parseIntNat (s : String) : ℕ :=
  s.data.foldl (fun acc c => acc * 10 + (c.toNat - 48)) 0

/-- The fixed id exclusion set of the indexer (`idsToSkip`). -/
def idsToSkip : List String :=
  ["1", "127", "655", "656", "657", "658", "659", "660",
   "1227", "1228", "1229", "1230", "1231", "1232"]

/-- A texture reference inside a block's own palette (the dedup key pair,
standing for the cache key string `atlasFileIndex + "-" + textureIndexOnAtlas`). -/
structure TexRef where
  atlasFileIndex : ℕ
  textureIndexOnAtlas : ℕ
deriving DecidableEq

/-- One entry of the block→texture map file: name, face map (face name →
index into the block's texture palette), and that palette. -/
structure BlockData where
  name : String
  faceMap : List (String × ℕ)
  texturePalette : List TexRef
deriving DecidableEq

/-- A global texture palette entry as far as the exclusion claims are
concerned: its dense id and its dedup key.  (The histogram analysis of
`analyzeTexture` and the face/color index are external image analysis and
bookkeeping no claim depends on, and are elided.) -/
structure PalEntry where
  textureId : ℕ
  ref : TexRef
deriving DecidableEq

/-- The indexer's mutable state: the growing global palette, the dedup
cache, and the included-block-id list. -/
structure IdxState where
  texturePalette : List PalEntry
  textureCache : List (TexRef × ℕ)
  includedBlockIds : List ℕ
deriving DecidableEq

/-- One `faceMap` iteration of the indexer's inner loop: resolve the face's
texture reference (skip when missing) and register it in the palette and
cache if it was never seen. -/
def faceStep (blockData : BlockData) (st : IdxState) (face : String × ℕ) : IdxState :=
  match blockData.texturePalette.get? face.2 with
  | none => st
  | some textureInfo =>
    match st.textureCache.lookup textureInfo with
    | some _ => st
    | none =>
      let textureId := st.texturePalette.length
      { st with
        texturePalette := st.texturePalette ++ [⟨textureId, textureInfo⟩],
        textureCache := st.textureCache ++ [(textureInfo, textureId)] }

/-- The inner loop over one block's faces. -/
def processFaces (blockData : BlockData) (st : IdxState) : IdxState :=
  blockData.faceMap.foldl (faceStep blockData) st

/-- Whether the indexer drops the block entirely. -/
def isExcluded (blockId : String) (blockData : BlockData) : Bool :=
  containsSlab blockData.name || blockId ∈ idsToSkip

/-- One iteration of the indexer's outer loop over `Object.entries(mapData)`. -/
def indexerStep (st : IdxState) (entry : String × BlockData) : IdxState :=
  if isExcluded entry.1 entry.2 then st
  else
    processFaces entry.2
      { st with includedBlockIds := st.includedBlockIds ++ [parseIntNat entry.1] }

/-- The indexer's whole loop, from the empty state. -/
def runIndexer (mapData : List (String × BlockData)) : IdxState :=
  mapData.foldl indexerStep ⟨[], [], []⟩

/-- The `2_texture_index_available_block_ids.json` artifact: the included
block ids, sorted ascending. -/
def indexerIncludedBlockIds (mapData : List (String × BlockData)) : List ℕ :=
  (runIndexer mapData).includedBlockIds.insertionSort (· ≤ ·)

/-- `generate_included_blockids.js`: every block whose name lacks the slab
marker contributes its parsed id to a set, output sorted ascending.  Note
this companion tool applies no id-based exclusion. -/
def companionIncludedBlockIds (mapData : List (String × BlockData)) : List ℕ :=
  ((mapData.filterMap fun entry =>
      if containsSlab entry.2.name then none
      else some (parseIntNat entry.1)).dedup).insertionSort (· ≤ ·)

lemma jsRound_intCast (m : ℤ) : jsRound (m : ℚ) = m := by
  have h1 : (m : ℚ) ≤ (m : ℚ) + 1 / 2 := by norm_num
  have h2 : (m : ℚ) + 1 / 2 < (m : ℚ) + 1 := by norm_num
  exact Int.floor_eq_iff.mpr ⟨h1, by exact_mod_cast h2⟩

lemma jsRound_mul_div_cancel (a : ℤ) (n : ℕ) (hn : n ≠ 0) :
    jsRound (((a * (n : ℤ) : ℤ) : ℚ) / (n : ℚ)) = a := by
  have hq : (n : ℚ) ≠ 0 := Nat.cast_ne_zero.mpr hn
  have h : ((a * (n : ℤ) : ℤ) : ℚ) / (n : ℚ) = (a : ℚ) := by
    push_cast
    field_simp
  rw [h, jsRound_intCast]

lemma perceivedColor_single_aux (t : Texture) (col : Rgb) (n : ℕ)
    (hhex : t.colorHexes = [some col]) (hcnt : t.colorPixelCounts = [n])
    (hn : 0 < n) (depth : Option ℕ) (hdepth : depth ≠ some 0) :
    calculatePerceivedColor t depth = some col := by
  obtain ⟨r, g, b⟩ := col
  have hhist : t.hist = [(some ⟨r, g, b⟩, n)] := by
    simp [Texture.hist, hhex, hcnt]
  have hlim : histLimited t depth = [(some ⟨r, g, b⟩, n)] := by
    cases depth with
    | none => simpa [histLimited]
    | some k =>
      match k, hdepth with
      | 0, hd => exact absurd rfl hd
      | (k + 1), _ => simp [histLimited, hhist]
  simp [calculatePerceivedColor, hlim, keptColorEntries, hn.ne',
    jsRound_mul_div_cancel, jsRound_intCast]

/-- C8: a texture whose histogram is a single fully-opaque color entry has
that exact color as its perceived color, for every search depth other than
an explicit depth of 0 (in particular for every depth ≥ 1 and for the
unlimited depth: the result is independent of the depth). -/
theorem calculatePerceivedColor_uniform (t : Texture) (col : Rgb) (n : ℕ)
    (hhex : t.colorHexes = [some col]) (hcnt : t.colorPixelCounts = [n])
    (hn : 0 < n) (depth : Option ℕ) (hdepth : depth ≠ some 0) :
    calculatePerceivedColor t depth = some col :=
  perceivedColor_single_aux t col n hhex hcnt hn depth hdepth

/-- Witness for C8 at a concrete uniform texture and depth 5. -/
theorem calculatePerceivedColor_uniform_witness :
    0 < 64 ∧ (some 5 : Option ℕ) ≠ some 0 ∧
      calculatePerceivedColor ⟨0, 0, 0, [some ⟨10, 20, 30⟩], [64], 1, false, []⟩
        (some 5) = some ⟨10, 20, 30⟩ :=
  ⟨by decide, by decide,
    calculatePerceivedColor_uniform _ ⟨10, 20, 30⟩ 64 rfl rfl (by decide)
      (some 5) (by decide)⟩

/-- The variance formula as the spec words it (for comparison with
`calculateColorVariance`): the histogram-count-weighted average Euclidean
RGB distance of each non-transparent color from the weighted mean color
computed over the entire histogram ignoring transparent entries (the
full-depth perceived color); an empty non-transparent weight averages to 0. -/
noncomputable def specVariance (t : Texture) : ℝ :=
  match calculatePerceivedColor t none with
  | none => 0
  | some meanColor =>
    let kept := keptColorEntries t.hist
    let totalPixels : ℕ := (kept.map fun e => e.2).sum
    if totalPixels = 0 then 0
    else (kept.map fun e => colorDistance e.1 meanColor * (e.2 : ℝ)).sum /
      (totalPixels : ℝ)

lemma colorDistance_self (rgb : Rgb) : colorDistance rgb rgb = 0 := by
  simp [colorDistance]

/-- C7: `calculateColorVariance` is 0 whenever `colorCount ≤ 1`, and on every
well-formed texture record (parallel histogram arrays, `colorCount` the
number of histogram entries) it equals the spec's weighted-average-distance
formula. -/
theorem calculateColorVariance_spec (t : Texture)
    (hlen : t.colorPixelCounts.length = t.colorHexes.length)
    (hcc : t.colorCount = t.colorHexes.length) :
    (t.colorCount ≤ 1 → calculateColorVariance t = 0) ∧
    calculateColorVariance t = specVariance t := by
  refine ⟨fun h => by simp [calculateColorVariance, h], ?_⟩
  by_cases hc : t.colorCount ≤ 1
  case neg =>
    simp only [calculateColorVariance, if_neg hc, specVariance]
  case pos =>
    have hlen1 : t.colorHexes.length ≤ 1 := hcc ▸ hc
    simp only [calculateColorVariance, if_pos hc]
    cases hhx : t.colorHexes with
    | nil =>
      have hhist : t.hist = [] := by simp [Texture.hist, hhx]
      simp [specVariance, calculatePerceivedColor, histLimited, hhist,
        keptColorEntries]
    | cons c rest =>
      have hr : rest = [] := by
        cases rest with
        | nil => rfl
        | cons x xs => rw [hhx] at hlen1; simp at hlen1
      subst hr
      obtain ⟨k, hk⟩ : ∃ k, t.colorPixelCounts = [k] := by
        cases hcp : t.colorPixelCounts with
        | nil => rw [hcp, hhx] at hlen; simp at hlen
        | cons k ks =>
          cases ks with
          | nil => exact ⟨k, rfl⟩
          | cons y ys => rw [hcp, hhx] at hlen; simp at hlen
      have hhist : t.hist = [(c, k)] := by simp [Texture.hist, hhx, hk]
      cases c with
      | none =>
        simp [specVariance, calculatePerceivedColor, histLimited, hhist,
          keptColorEntries]
      | some rgb =>
        by_cases hk0 : k = 0
        · subst hk0
          simp [specVariance, calculatePerceivedColor, histLimited, hhist,
            keptColorEntries]
        · have hpc : calculatePerceivedColor t none = some rgb :=
            perceivedColor_single_aux t rgb k (by rw [hhx]) hk
              (Nat.pos_of_ne_zero hk0) none (by simp)
          simp [specVariance, hpc, hhist, keptColorEntries,
            colorDistance_self, hk0]

/-- Witness for C7 at a concrete two-entry texture record. -/
theorem calculateColorVariance_spec_witness :
    ([64, 0] : List ℕ).length = ([some ⟨1, 2, 3⟩, none] : List (Option Rgb)).length ∧
      ((2 : ℕ) ≤ 1 →
        calculateColorVariance ⟨0, 0, 0, [some ⟨1, 2, 3⟩, none], [64, 0], 2, true, []⟩ = 0) ∧
      calculateColorVariance ⟨0, 0, 0, [some ⟨1, 2, 3⟩, none], [64, 0], 2, true, []⟩ =
        specVariance ⟨0, 0, 0, [some ⟨1, 2, 3⟩, none], [64, 0], 2, true, []⟩ :=
  ⟨by decide,
    (calculateColorVariance_spec ⟨0, 0, 0, [some ⟨1, 2, 3⟩, none], [64, 0], 2, true, []⟩
      (by decide) (by decide)).1,
    (calculateColorVariance_spec ⟨0, 0, 0, [some ⟨1, 2, 3⟩, none], [64, 0], 2, true, []⟩
      (by decide) (by decide)).2⟩


open Classical in
/-- The running best of the scan, exploiting that the tracked minimum always
equals the running best's own distance. -/
noncomputable def firstMin (pixelColor : Rgb) (best : Candidate) :
    List Candidate → Candidate
  | [] => best
  | c :: rest =>
    if colorDistance pixelColor c.perceivedColor <
        colorDistance pixelColor best.perceivedColor then
      firstMin pixelColor c rest
    else firstMin pixelColor best rest

lemma findBestAux_eq_firstMin (p : Rgb) (cs : List Candidate) (b : Candidate) :
    findBestAux p cs (some (b, colorDistance p b.perceivedColor)) =
      some (firstMin p b cs, colorDistance p (firstMin p b cs).perceivedColor) := by
  induction cs generalizing b with
  | nil => simp [findBestAux, firstMin]
  | cons c rest ih =>
    simp only [findBestAux, firstMin]
    split_ifs with h
    · exact ih c
    · exact ih b

lemma findBestPair_cons (p : Rgb) (c : Candidate) (cs : List Candidate) :
    findBestPair p (c :: cs) =
      some (firstMin p c cs, colorDistance p (firstMin p c cs).perceivedColor) := by
  rw [findBestPair]
  simp only [findBestAux]
  exact findBestAux_eq_firstMin p cs c

lemma firstMin_mem (p : Rgb) (b : Candidate) (cs : List Candidate) :
    firstMin p b cs ∈ b :: cs := by
  induction cs generalizing b with
  | nil => simp [firstMin]
  | cons c rest ih =>
    simp only [firstMin]
    split_ifs with h
    · exact List.mem_cons_of_mem b (ih c)
    · rcases List.mem_cons.mp (ih b) with h1 | h2
      · rw [h1]
        exact List.mem_cons_self _ _
      · exact List.mem_cons_of_mem b (List.mem_cons_of_mem c h2)

lemma firstMin_le (p : Rgb) (b : Candidate) (cs : List Candidate) :
    ∀ x ∈ b :: cs, colorDistance p (firstMin p b cs).perceivedColor ≤
      colorDistance p x.perceivedColor := by
  induction cs generalizing b with
  | nil =>
    intro x hx
    rw [List.mem_singleton] at hx
    subst hx
    simp [firstMin]
  | cons c rest ih =>
    intro x hx
    simp only [firstMin]
    split_ifs with h
    · rcases List.mem_cons.mp hx with rfl | h2
      · exact le_of_lt (lt_of_le_of_lt (ih c c (List.mem_cons_self c rest)) h)
      · exact ih c x h2
    · rcases List.mem_cons.mp hx with rfl | h2
      · exact ih x x (List.mem_cons_self x rest)
      · rcases List.mem_cons.mp h2 with rfl | h3
        · exact le_trans (ih b b (List.mem_cons_self b rest)) (not_lt.mp h)
        · exact ih b x (List.mem_cons_of_mem b h3)

lemma firstMin_first (p : Rgb) (b : Candidate) (cs : List Candidate) :
    ∃ l1 l2, b :: cs = l1 ++ firstMin p b cs :: l2 ∧
      ∀ x ∈ l1, colorDistance p (firstMin p b cs).perceivedColor <
        colorDistance p x.perceivedColor := by
  induction cs generalizing b with
  | nil => exact ⟨[], [], by simp [firstMin], by simp⟩
  | cons c rest ih =>
    simp only [firstMin]
    split_ifs with h
    · obtain ⟨l1, l2, hsplit, hlt⟩ := ih c
      refine ⟨b :: l1, l2, by rw [List.cons_append, ← hsplit], ?_⟩
      intro x hx
      rcases List.mem_cons.mp hx with rfl | hx'
      · exact lt_of_le_of_lt (firstMin_le p c rest c (List.mem_cons_self c rest)) h
      · exact hlt x hx'
    · obtain ⟨l1, l2, hsplit, hlt⟩ := ih b
      cases l1 with
      | nil =>
        rw [List.nil_append] at hsplit
        injection hsplit with h1 h2
        refine ⟨[], c :: rest, ?_, by simp⟩
        rw [List.nil_append, ← h1]
      | cons b' l1' =>
        rw [List.cons_append] at hsplit
        injection hsplit with h1 h2
        subst h1
        refine ⟨b :: c :: l1', l2, ?_, ?_⟩
        · rw [List.cons_append, List.cons_append, ← h2]
        · intro x hx
          rcases List.mem_cons.mp hx with rfl | hx'
          · exact hlt x (List.mem_cons_self x l1')
          · rcases List.mem_cons.mp hx' with rfl | hx''
            · exact lt_of_lt_of_le (hlt b (List.mem_cons_self b l1')) (not_lt.mp h)
            · exact hlt x (List.mem_cons_of_mem b hx'')

/-- C6: in static/no-history mode, `findBestMatch` returns the candidate
whose perceived color has minimum Euclidean RGB distance to the target, and
among equally distant candidates the one occurring first in the candidate
list (palette order). -/
theorem findBestMatch_static_spec (p : Rgb) (candidates : List Candidate)
    (hne : candidates ≠ []) :
    ∃ l1 best l2, candidates = l1 ++ best :: l2 ∧
      findBestMatch p candidates = some best.textureInfo ∧
      (∀ c ∈ candidates, colorDistance p best.perceivedColor ≤
        colorDistance p c.perceivedColor) ∧
      ∀ c ∈ l1, colorDistance p best.perceivedColor <
        colorDistance p c.perceivedColor := by
  cases candidates with
  | nil => exact absurd rfl hne
  | cons c cs =>
    obtain ⟨l1, l2, hsplit, hlt⟩ := firstMin_first p c cs
    refine ⟨l1, firstMin p c cs, l2, hsplit, ?_, ?_, hlt⟩
    · simp only [findBestMatch, findBestPair_cons]
    · exact firstMin_le p c cs

/-- Witness for C6 at a two-candidate list with an exact tie broken in favor
of the earlier candidate. -/
theorem findBestMatch_static_spec_witness :
    ([⟨⟨1, 0, 0, [], [], 0, false, []⟩, ⟨3, 0, 0⟩⟩,
      ⟨⟨2, 0, 0, [], [], 0, false, []⟩, ⟨3, 0, 0⟩⟩] : List Candidate) ≠ [] ∧
    ∃ l1 best l2,
      ([⟨⟨1, 0, 0, [], [], 0, false, []⟩, ⟨3, 0, 0⟩⟩,
        ⟨⟨2, 0, 0, [], [], 0, false, []⟩, ⟨3, 0, 0⟩⟩] : List Candidate) =
          l1 ++ best :: l2 ∧
      findBestMatch ⟨0, 0, 0⟩
        [⟨⟨1, 0, 0, [], [], 0, false, []⟩, ⟨3, 0, 0⟩⟩,
         ⟨⟨2, 0, 0, [], [], 0, false, []⟩, ⟨3, 0, 0⟩⟩] = some best.textureInfo ∧
      (∀ c ∈ ([⟨⟨1, 0, 0, [], [], 0, false, []⟩, ⟨3, 0, 0⟩⟩,
          ⟨⟨2, 0, 0, [], [], 0, false, []⟩, ⟨3, 0, 0⟩⟩] : List Candidate),
        colorDistance ⟨0, 0, 0⟩ best.perceivedColor ≤
          colorDistance ⟨0, 0, 0⟩ c.perceivedColor) ∧
      ∀ c ∈ l1, colorDistance ⟨0, 0, 0⟩ best.perceivedColor <
        colorDistance ⟨0, 0, 0⟩ c.perceivedColor :=
  ⟨by simp, findBestMatch_static_spec ⟨0, 0, 0⟩ _ (by simp)⟩

lemma first_argmin_unique (p : Rgb) (cs l1 l2 l1' l2' : List Candidate)
    (b b' : Candidate)
    (h1 : cs = l1 ++ b :: l2) (h2 : cs = l1' ++ b' :: l2')
    (hmin1 : ∀ c ∈ cs, colorDistance p b.perceivedColor ≤
      colorDistance p c.perceivedColor)
    (hlt1 : ∀ c ∈ l1, colorDistance p b.perceivedColor <
      colorDistance p c.perceivedColor)
    (hmin2 : ∀ c ∈ cs, colorDistance p b'.perceivedColor ≤
      colorDistance p c.perceivedColor)
    (hlt2 : ∀ c ∈ l1', colorDistance p b'.perceivedColor <
      colorDistance p c.perceivedColor) :
    b = b' := by
  rcases lt_trichotomy l1.length l1'.length with hl | hl | hl
  · exfalso
    have hb : cs.get? l1.length = some b := by
      rw [h1, List.get?_append_right (le_refl l1.length)]
      simp
    have hbmem : b ∈ l1' := by
      rw [h2, List.get?_append hl] at hb
      exact List.get?_mem hb
    have hlt := hlt2 b hbmem
    have hle := hmin1 b' (by
      rw [h2]
      exact List.mem_append_right _ (List.mem_cons_self _ _))
    exact absurd (lt_of_le_of_lt hle hlt) (lt_irrefl _)
  · rw [h1] at h2
    obtain ⟨heq1, heq2⟩ := List.append_inj h2 hl
    injection heq2
  · exfalso
    have hb : cs.get? l1'.length = some b' := by
      rw [h2, List.get?_append_right (le_refl l1'.length)]
      simp
    have hbmem : b' ∈ l1 := by
      rw [h1, List.get?_append hl] at hb
      exact List.get?_mem hb
    have hlt := hlt1 b' hbmem
    have hle := hmin2 b (by
      rw [h1]
      exact List.mem_append_right _ (List.mem_cons_self _ _))
    exact absurd (lt_of_le_of_lt hle hlt) (lt_irrefl _)

lemma findBestPair_of_first_argmin (p : Rgb) (candidates l1 l2 : List Candidate)
    (best : Candidate) (hsplit : candidates = l1 ++ best :: l2)
    (hmin : ∀ c ∈ candidates, colorDistance p best.perceivedColor ≤
      colorDistance p c.perceivedColor)
    (hfirst : ∀ c ∈ l1, colorDistance p best.perceivedColor <
      colorDistance p c.perceivedColor) :
    findBestPair p candidates =
      some (best, colorDistance p best.perceivedColor) := by
  cases hcs : candidates with
  | nil =>
    rw [hcs] at hsplit
    exact absurd hsplit.symm (by simp)
  | cons c cs =>
    obtain ⟨m1, m2, hsplit', hlt'⟩ := firstMin_first p c cs
    have heq : firstMin p c cs = best := by
      refine first_argmin_unique p (c :: cs) m1 m2 l1 l2 (firstMin p c cs) best
        hsplit' (hcs ▸ hsplit) (firstMin_le p c cs) hlt' ?_ ?_
      · intro x hx
        exact hmin x (by rw [hcs]; exact hx)
      · exact hfirst
    rw [findBestPair_cons, heq]

/-- C1: sequence-mode hysteresis.  With `best` the global nearest candidate
(first among minimizers in palette order): with no previous choice, with the
previous id equal to `best`'s, or with the previous id absent from the
candidate list, the matcher returns `best`; with the previous id `pid ≠ best`
resolving to candidate `prev`, it returns `best` exactly when
`distance(target, prev) − distance(target, best)` strictly exceeds the switch
threshold, and returns `prev`'s texture otherwise. -/
theorem findBestMatchSeq_hysteresis (thr : ℚ) (p : Rgb)
    (candidates l1 l2 : List Candidate) (best : Candidate)
    (hsplit : candidates = l1 ++ best :: l2)
    (hmin : ∀ c ∈ candidates, colorDistance p best.perceivedColor ≤
      colorDistance p c.perceivedColor)
    (hfirst : ∀ c ∈ l1, colorDistance p best.perceivedColor <
      colorDistance p c.perceivedColor) :
    (findBestMatchSeq thr p candidates none = some best.textureInfo) ∧
    (findBestMatchSeq thr p candidates (some best.textureInfo.textureId) =
      some best.textureInfo) ∧
    (∀ pid, (∀ c ∈ candidates, c.textureInfo.textureId ≠ pid) →
      findBestMatchSeq thr p candidates (some pid) = some best.textureInfo) ∧
    ∀ pid prev, pid ≠ best.textureInfo.textureId →
      candidates.find? (fun c => c.textureInfo.textureId = pid) = some prev →
      ((findBestMatchSeq thr p candidates (some pid) = some best.textureInfo ↔
        colorDistance p prev.perceivedColor -
          colorDistance p best.perceivedColor > (thr : ℝ)) ∧
       (¬(colorDistance p prev.perceivedColor -
          colorDistance p best.perceivedColor > (thr : ℝ)) →
        findBestMatchSeq thr p candidates (some pid) =
          some prev.textureInfo)) := by
  have hpair := findBestPair_of_first_argmin p candidates l1 l2 best hsplit hmin hfirst
  refine ⟨?_, ?_, ?_, ?_⟩
  · simp [findBestMatchSeq, hpair]
  · simp [findBestMatchSeq, hpair]
  · intro pid habsent
    by_cases hpid : best.textureInfo.textureId = pid
    · simp [findBestMatchSeq, hpair, hpid]
    · have hnone : candidates.find? (fun c => c.textureInfo.textureId = pid) = none := by
        rw [List.find?_eq_none]
        intro c hc
        simpa using habsent c hc
      simp [findBestMatchSeq, hpair, hpid, hnone]
  · intro pid prev hpid hfind
    have hprevtid : prev.textureInfo.textureId = pid := by
      have := List.find?_some hfind
      simpa using this
    have hprevne : prev.textureInfo ≠ best.textureInfo := by
      intro hcontra
      exact hpid (by rw [← hprevtid, hcontra])
    have hbranch : findBestMatchSeq thr p candidates (some pid) =
        if colorDistance p prev.perceivedColor -
            colorDistance p best.perceivedColor > (thr : ℝ) then
          some best.textureInfo
        else some prev.textureInfo := by
      simp only [findBestMatchSeq, hpair]
      rw [if_neg (Ne.symm hpid), hfind]
    constructor
    · constructor
      · intro heq
        by_contra hnot
        rw [hbranch, if_neg hnot] at heq
        exact hprevne (Option.some_injective _ heq)
      · intro hgt
        rw [hbranch, if_pos hgt]
    · intro hnot
      rw [hbranch, if_neg hnot]

/-- Witness for C1: target (0,0,0), best candidate at distance 3, previous
candidate (texture id 7) at distance 20; improvement 17 exceeds the 15.0
threshold, so the matcher switches to the best candidate. -/
theorem findBestMatchSeq_hysteresis_witness :
    findBestMatchSeq 15 ⟨0, 0, 0⟩
      [⟨⟨1, 0, 0, [], [], 0, false, []⟩, ⟨3, 0, 0⟩⟩,
       ⟨⟨7, 0, 0, [], [], 0, false, []⟩, ⟨20, 0, 0⟩⟩] (some 7) =
      some ⟨1, 0, 0, [], [], 0, false, []⟩ := by
  have hd3 : colorDistance ⟨0, 0, 0⟩ ⟨3, 0, 0⟩ = 3 := by
    rw [colorDistance]
    norm_num
    rw [show (9 : ℝ) = 3 ^ 2 by norm_num]
    exact Real.sqrt_sq (by norm_num)
  have hd20 : colorDistance ⟨0, 0, 0⟩ ⟨20, 0, 0⟩ = 20 := by
    rw [colorDistance]
    norm_num
    rw [show (400 : ℝ) = 20 ^ 2 by norm_num]
    exact Real.sqrt_sq (by norm_num)
  have hmin : ∀ c ∈ ([⟨⟨1, 0, 0, [], [], 0, false, []⟩, ⟨3, 0, 0⟩⟩,
      ⟨⟨7, 0, 0, [], [], 0, false, []⟩, ⟨20, 0, 0⟩⟩] : List Candidate),
      colorDistance ⟨0, 0, 0⟩
        (⟨⟨1, 0, 0, [], [], 0, false, []⟩, ⟨3, 0, 0⟩⟩ : Candidate).perceivedColor ≤
        colorDistance ⟨0, 0, 0⟩ c.perceivedColor := by
    intro c hc
    rcases List.mem_cons.mp hc with rfl | hc'
    · exact le_refl _
    · rcases List.mem_cons.mp hc' with rfl | hc''
      · show colorDistance ⟨0, 0, 0⟩ ⟨3, 0, 0⟩ ≤ colorDistance ⟨0, 0, 0⟩ ⟨20, 0, 0⟩
        rw [hd3, hd20]
        norm_num
      · simp at hc''
  have happ := findBestMatchSeq_hysteresis 15 ⟨0, 0, 0⟩
    [⟨⟨1, 0, 0, [], [], 0, false, []⟩, ⟨3, 0, 0⟩⟩,
     ⟨⟨7, 0, 0, [], [], 0, false, []⟩, ⟨20, 0, 0⟩⟩]
    [] [⟨⟨7, 0, 0, [], [], 0, false, []⟩, ⟨20, 0, 0⟩⟩]
    ⟨⟨1, 0, 0, [], [], 0, false, []⟩, ⟨3, 0, 0⟩⟩
    rfl hmin (by simp)
  obtain ⟨hiff, hstay⟩ := happ.2.2.2 7
    ⟨⟨7, 0, 0, [], [], 0, false, []⟩, ⟨20, 0, 0⟩⟩ (by decide) rfl
  apply hiff.mpr
  show colorDistance ⟨0, 0, 0⟩ ⟨20, 0, 0⟩ - colorDistance ⟨0, 0, 0⟩ ⟨3, 0, 0⟩ >
    ((15 : ℚ) : ℝ)
  rw [hd3, hd20]
  norm_num

lemma findBestPair_mem (p : Rgb) (cs : List Candidate) (b : Candidate) (m : ℝ)
    (h : findBestPair p cs = some (b, m)) : b ∈ cs := by
  cases cs with
  | nil => simp [findBestPair, findBestAux] at h
  | cons c rest =>
    rw [findBestPair_cons] at h
    injection h with h1
    have h2 : firstMin p c rest = b := congrArg Prod.fst h1
    rw [← h2]
    exact firstMin_mem p c rest

lemma findBestMatchSeq_mem (thr : ℚ) (p : Rgb) (candidates : List Candidate)
    (prev : Option ℕ) (t : Texture)
    (ht : findBestMatchSeq thr p candidates prev = some t) :
    ∃ c ∈ candidates, c.textureInfo = t := by
  cases hp : findBestPair p candidates with
  | none => simp [findBestMatchSeq, hp] at ht
  | some pr =>
    obtain ⟨b, m⟩ := pr
    have hbmem := findBestPair_mem p candidates b m hp
    simp only [findBestMatchSeq, hp] at ht
    cases prev with
    | none => exact ⟨b, hbmem, Option.some.inj ht⟩
    | some pid =>
      dsimp only at ht
      by_cases hc : b.textureInfo.textureId = pid
      · rw [if_pos hc] at ht
        exact ⟨b, hbmem, Option.some.inj ht⟩
      · rw [if_neg hc] at ht
        cases hf : candidates.find? (fun c => c.textureInfo.textureId = pid) with
        | none =>
          rw [hf] at ht
          exact ⟨b, hbmem, Option.some.inj ht⟩
        | some prevC =>
          rw [hf] at ht
          dsimp only at ht
          have hpm := List.mem_of_find?_eq_some hf
          split at ht
          · exact ⟨b, hbmem, Option.some.inj ht⟩
          · exact ⟨prevC, hpm, Option.some.inj ht⟩

/-- C9: every non-null answer of the static matcher, of the sequence matcher
(for any history), and hence every non-null texture id written into a
frame's choice grid, belongs to the current candidate set. -/
theorem matchResult_mem (thr : ℚ) (p : Rgb) (candidates : List Candidate) :
    (∀ t, findBestMatch p candidates = some t →
      ∃ c ∈ candidates, c.textureInfo = t) ∧
    (∀ prev t, findBestMatchSeq thr p candidates prev = some t →
      ∃ c ∈ candidates, c.textureInfo = t) ∧
    ∀ pixels previousFrameChoices y x row id,
      (processFrameChoices thr candidates previousFrameChoices pixels).get? y =
        some row →
      row.get? x = some (some id) →
      ∃ c ∈ candidates, c.textureInfo.textureId = id := by
  refine ⟨?_, fun prev t ht => findBestMatchSeq_mem thr p candidates prev t ht, ?_⟩
  · intro t ht
    cases hp : findBestPair p candidates with
    | none => simp [findBestMatch, hp] at ht
    | some pr =>
      obtain ⟨b, m⟩ := pr
      simp only [findBestMatch, hp] at ht
      exact ⟨b, findBestPair_mem p candidates b m hp, Option.some.inj ht⟩
  · intro pixels pfc y x row id hrow hcell
    rw [processFrameChoices, List.get?_map] at hrow
    obtain ⟨⟨y', prow⟩, hy, hfrow⟩ := Option.map_eq_some'.mp hrow
    rw [← hfrow, List.get?_map] at hcell
    obtain ⟨⟨x', px⟩, hx, hcellval⟩ := Option.map_eq_some'.mp hcell
    simp only at hcellval
    obtain ⟨t, hts, htid⟩ := Option.map_eq_some'.mp hcellval
    obtain ⟨c, hcmem, hct⟩ := findBestMatchSeq_mem thr px candidates _ t hts
    exact ⟨c, hcmem, by rw [hct, htid]⟩

/-- Witness for C9: the static matcher's unique answer on a one-candidate
list is that candidate's texture. -/
theorem matchResult_mem_witness :
    ∃ c ∈ ([⟨⟨1, 0, 0, [], [], 0, false, []⟩, ⟨3, 0, 0⟩⟩] : List Candidate),
      c.textureInfo = ⟨1, 0, 0, [], [], 0, false, []⟩ :=
  (matchResult_mem 15 ⟨0, 0, 0⟩
    [⟨⟨1, 0, 0, [], [], 0, false, []⟩, ⟨3, 0, 0⟩⟩]).1
    ⟨1, 0, 0, [], [], 0, false, []⟩ rfl

/-- C4: `loadAndPrepareCandidates` raises exactly when the requested face
direction is absent from the index or the filter leaves zero candidates, and
otherwise returns precisely the (non-empty) filtered candidate list — no
fallback candidate is ever substituted. -/
theorem loadAndPrepareCandidates_spec (cfg : Config) (td : TextureData) :
    (td.face_index.lookup cfg.faceDirection = none →
      loadAndPrepareCandidates cfg td =
        .error "Face direction not found in index file.") ∧
    (∀ faceIndex, td.face_index.lookup cfg.faceDirection = some faceIndex →
      (filterCandidates cfg (validTextureIdsForFace faceIndex)
          td.texture_palette = [] →
        loadAndPrepareCandidates cfg td =
          .error "No candidate textures found with the specified filters.") ∧
      (filterCandidates cfg (validTextureIdsForFace faceIndex)
          td.texture_palette ≠ [] →
        loadAndPrepareCandidates cfg td =
          .ok (filterCandidates cfg (validTextureIdsForFace faceIndex)
            td.texture_palette))) ∧
    ∀ l, loadAndPrepareCandidates cfg td = .ok l → l ≠ [] ∧
      ∃ faceIndex, td.face_index.lookup cfg.faceDirection = some faceIndex ∧
        l = filterCandidates cfg (validTextureIdsForFace faceIndex)
          td.texture_palette := by
  refine ⟨?_, ?_, ?_⟩
  · intro hnone
    simp [loadAndPrepareCandidates, hnone]
  · intro faceIndex hsome
    constructor
    · intro hemp
      simp [loadAndPrepareCandidates, hsome, hemp]
    · intro hne
      simp [loadAndPrepareCandidates, hsome, hne]
  · intro l hok
    cases hlk : td.face_index.lookup cfg.faceDirection with
    | none => simp [loadAndPrepareCandidates, hlk] at hok
    | some faceIndex =>
      simp only [loadAndPrepareCandidates, hlk] at hok
      by_cases hemp : filterCandidates cfg (validTextureIdsForFace faceIndex)
          td.texture_palette = []
      · rw [if_pos hemp] at hok
        exact absurd hok (by simp)
      · rw [if_neg hemp] at hok
        have hl : l = filterCandidates cfg (validTextureIdsForFace faceIndex)
            td.texture_palette := by
          injection hok with h1
          exact h1.symm
        refine ⟨?_, ⟨faceIndex, rfl, hl⟩⟩
        rw [hl]
        exact hemp

/-- Witness for C4: an index with no faces at all makes the preparation fail
with the missing-face error. -/
theorem loadAndPrepareCandidates_spec_witness :
    loadAndPrepareCandidates ⟨"front", none, none, none, true, 15⟩
      ⟨[], []⟩ = .error "Face direction not found in index file." :=
  (loadAndPrepareCandidates_spec ⟨"front", none, none, none, true, 15⟩ ⟨[], []⟩).1 rfl

/-- "Tighter than": the first optional bound is at most as permissive as the
second (`none` = unlimited). -/
def tighterLe {α : Type} [LE α] (a b : Option α) : Prop :=
  b = none ∨ ∃ va vb, a = some va ∧ b = some vb ∧ va ≤ vb

lemma keepTexture_mono (cfg cfg' : Config) (validIds : List ℕ)
    (hdepth : cfg'.searchDepth = cfg.searchDepth)
    (htrans : cfg'.allowTransparency = cfg.allowTransparency)
    (hvar : tighterLe cfg'.maxVariance cfg.maxVariance)
    (hcc : tighterLe cfg'.maxColorCount cfg.maxColorCount)
    (t : Texture) (c : Candidate) (h : keepTexture cfg' validIds t = some c) :
    keepTexture cfg validIds t = some c := by
  rw [keepTexture] at h
  split at h
  case isTrue h1 => simp at h
  case isFalse h1 =>
  split at h
  case isTrue h2 => simp at h
  case isFalse h2 =>
  split at h
  case isTrue h3 => simp at h
  case isFalse h3 =>
  split at h
  case isTrue h4 => simp at h
  case isFalse h4 =>
  have hc2 : ¬(match cfg.maxColorCount with
      | some m => t.colorCount > m
      | none => False) := by
    rcases hcc with hnone | ⟨va, vb, ha', hb', hle⟩
    · rw [hnone]
      simp
    · rw [hb']
      rw [ha'] at h2
      exact fun hgt => h2 (lt_of_le_of_lt hle hgt)
  have hc4 : ¬(match cfg.maxVariance with
      | some v => calculateColorVariance t > (v : ℝ)
      | none => False) := by
    rcases hvar with hnone | ⟨va, vb, ha', hb', hle⟩
    · rw [hnone]
      simp
    · rw [hb']
      rw [ha'] at h4
      exact fun hgt => h4 (lt_of_le_of_lt (by exact_mod_cast hle) hgt)
  rw [keepTexture, if_neg h1, if_neg hc2, if_neg (htrans ▸ h3), if_neg hc4,
    ← hdepth]
  exact h

lemma filterMap_sublist_of_imp {α β : Type} (f g : α → Option β)
    (hfg : ∀ a b, f a = some b → g a = some b) (l : List α) :
    (l.filterMap f).Sublist (l.filterMap g) := by
  induction l with
  | nil => simp
  | cons a rest ih =>
    cases hf : f a with
    | none =>
      cases hg : g a with
      | none => simp [List.filterMap_cons, hf, hg, ih]
      | some b =>
        simp only [List.filterMap_cons, hf, hg]
        exact ih.cons b
    | some b =>
      have hgb := hfg a b hf
      simp only [List.filterMap_cons, hf, hgb]
      exact ih.cons₂ b

/-- C5: tightening `maxVariance` and/or `maxColorCount` (all other options
equal) shrinks the candidate list to a sublist — in particular the candidate
count never increases. -/
theorem filterCandidates_monotone (cfg cfg' : Config) (validIds : List ℕ)
    (palette : List Texture)
    (hface : cfg'.faceDirection = cfg.faceDirection)
    (hdepth : cfg'.searchDepth = cfg.searchDepth)
    (htrans : cfg'.allowTransparency = cfg.allowTransparency)
    (hthr : cfg'.textureSwitchThreshold = cfg.textureSwitchThreshold)
    (hvar : tighterLe cfg'.maxVariance cfg.maxVariance)
    (hcc : tighterLe cfg'.maxColorCount cfg.maxColorCount) :
    (filterCandidates cfg' validIds palette).Sublist
      (filterCandidates cfg validIds palette) ∧
    (filterCandidates cfg' validIds palette).length ≤
      (filterCandidates cfg validIds palette).length := by
  have hsub : (filterCandidates cfg' validIds palette).Sublist
      (filterCandidates cfg validIds palette) :=
    filterMap_sublist_of_imp _ _
      (keepTexture_mono cfg cfg' validIds hdepth htrans hvar hcc) palette
  exact ⟨hsub, hsub.length_le⟩

/-- Witness for C5: tightening `maxColorCount` from unlimited to 0 on a
one-texture palette. -/
theorem filterCandidates_monotone_witness :
    (filterCandidates ⟨"front", none, none, some 0, true, 15⟩ [0]
      [⟨0, 0, 0, [some ⟨1, 2, 3⟩], [64], 1, false, [5]⟩]).Sublist
      (filterCandidates ⟨"front", none, none, none, true, 15⟩ [0]
        [⟨0, 0, 0, [some ⟨1, 2, 3⟩], [64], 1, false, [5]⟩]) ∧
    (filterCandidates ⟨"front", none, none, some 0, true, 15⟩ [0]
      [⟨0, 0, 0, [some ⟨1, 2, 3⟩], [64], 1, false, [5]⟩]).length ≤
      (filterCandidates ⟨"front", none, none, none, true, 15⟩ [0]
        [⟨0, 0, 0, [some ⟨1, 2, 3⟩], [64], 1, false, [5]⟩]).length :=
  filterCandidates_monotone ⟨"front", none, none, none, true, 15⟩
    ⟨"front", none, none, some 0, true, 15⟩ [0]
    [⟨0, 0, 0, [some ⟨1, 2, 3⟩], [64], 1, false, [5]⟩]
    rfl rfl rfl rfl (Or.inl rfl) (Or.inl rfl)

/-- The block id the spec's round-trip assigns to a cell: 0 for a no-match
cell, otherwise the smallest entry of the chosen texture's `blockIds`. -/
def specCellId (texturePalette : List Texture) (cell : Option ℕ) : ℕ :=
  match cell with
  | none => 0
  | some textureId =>
    match texturePalette.get? textureId with
    | some texture => texture.blockIds.min?.getD 0
    | none => 0

lemma min?_sorted_head (b : ℕ) (bs : List ℕ)
    (hsort : (b :: bs).Sorted (· ≤ ·)) : (b :: bs).min? = some b := by
  induction bs generalizing b with
  | nil => rfl
  | cons x xs ih =>
    rw [List.sorted_cons] at hsort
    obtain ⟨hle, hxs⟩ := hsort
    have hbx : b ≤ x := hle x (List.mem_cons_self x xs)
    have step : (b :: x :: xs).min? = (b :: xs).min? := by
      simp only [List.min?_cons', List.foldl_cons]
      rw [Nat.min_eq_left hbx]
    rw [step]
    apply ih
    rw [List.sorted_cons]
    rw [List.sorted_cons] at hxs
    exact ⟨fun y hy => hle y (List.mem_cons_of_mem x hy), hxs.2⟩

lemma row_symbols_eq (palette : List Texture) (row : List (Option ℕ)) :
    (List.range row.length).map
      (fun x => UNICODE_PRIVATE_USE_START + cellBlockId palette (row.get? x)) =
      row.map fun cell =>
        UNICODE_PRIVATE_USE_START + cellBlockId palette (some cell) := by
  apply List.ext_get
  · simp
  · intro n h1 h2
    have hn : n < row.length := by simpa using h2
    simp [List.get_map, List.get_range, List.get?_eq_get hn,
      List.getElem?_eq_getElem hn]

lemma map_add_map_sub {α : Type} (base : ℕ) (f : α → ℕ) (l : List α) :
    (l.map fun a => base + f a).map (fun s => s - base) = l.map f := by
  induction l with
  | nil => rfl
  | cons a rest ih => simp [ih, Nat.add_sub_cancel_left]

lemma generateBlueprint_eq_flatten_map (grid : ChoiceGrid)
    (palette : List Texture) (w : ℕ) (hw : ∀ row ∈ grid, row.length = w)
    (hne : grid ≠ []) :
    generateBlueprint grid palette =
      some (grid.flatten.map (fun cell =>
        UNICODE_PRIVATE_USE_START + cellBlockId palette (some cell)),
        w, grid.length) := by
  cases grid with
  | nil => exact absurd rfl hne
  | cons row0 rows =>
    have hw0 : row0.length = w := hw row0 (List.mem_cons_self _ _)
    have hrows : ((row0 :: rows).map fun row =>
        (List.range row0.length).map fun x =>
          UNICODE_PRIVATE_USE_START + cellBlockId palette (row.get? x)) =
        (row0 :: rows).map fun row => row.map fun cell =>
          UNICODE_PRIVATE_USE_START + cellBlockId palette (some cell) := by
      apply List.map_congr_left
      intro row hrow
      have hl : row0.length = row.length := by rw [hw row hrow, hw0]
      rw [hl]
      exact row_symbols_eq palette row
    show some (((row0 :: rows).map fun row =>
        (List.range row0.length).map fun x =>
          UNICODE_PRIVATE_USE_START + cellBlockId palette (row.get? x)).flatten,
        row0.length, (row0 :: rows).length) = _
    rw [hrows, hw0, ← List.map_flatten]

lemma flatten_get_uniform {α : Type} (L : List (List α)) (w : ℕ)
    (hL : ∀ l ∈ L, l.length = w) (y x : ℕ) (l : List α)
    (hy : L.get? y = some l) (hx : x < w) :
    L.flatten.get? (y * w + x) = l.get? x := by
  induction L generalizing y with
  | nil => simp at hy
  | cons a L' ih =>
    cases y with
    | zero =>
      have ha : a = l := by simpa using hy
      subst ha
      rw [List.flatten_cons, Nat.zero_mul, Nat.zero_add]
      exact List.get?_append (by rw [hL a (by simp)]; exact hx)
    | succ y' =>
      rw [List.flatten_cons]
      have hlen : a.length = w := hL a (by simp)
      have harith : (y' + 1) * w + x = a.length + (y' * w + x) := by
        rw [hlen]
        ring
      rw [harith, List.get?_append_right (Nat.le_add_right _ _),
        Nat.add_sub_cancel_left]
      exact ih (fun l' hl' => hL l' (by simp [hl'])) y' (by simpa using hy)

/-- C3: on a rectangular non-empty choice grid whose chosen texture ids all
resolve to palette entries with non-empty ascending `blockIds`, the encoder
emits one symbol per cell in row-major order (total `width*height`), each
symbol being the private-use base plus the chosen texture's smallest block
id (0 for a no-match cell); subtracting the base from every symbol yields
exactly the spec-side block id sequence. -/
theorem generateBlueprint_roundtrip (grid : ChoiceGrid) (palette : List Texture)
    (w : ℕ) (hw : ∀ row ∈ grid, row.length = w) (hne : grid ≠ [])
    (hcells : ∀ id, some id ∈ grid.flatten →
      ∃ t, palette.get? id = some t ∧ t.blockIds ≠ [] ∧
        t.blockIds.Sorted (· ≤ ·)) :
    ∃ symbols, generateBlueprint grid palette = some (symbols, w, grid.length) ∧
      symbols.length = w * grid.length ∧
      symbols.map (fun s => s - UNICODE_PRIVATE_USE_START) =
        grid.flatten.map (specCellId palette) ∧
      ∀ s ∈ symbols, UNICODE_PRIVATE_USE_START ≤ s := by
  refine ⟨grid.flatten.map (fun cell =>
      UNICODE_PRIVATE_USE_START + cellBlockId palette (some cell)),
    generateBlueprint_eq_flatten_map grid palette w hw hne, ?_, ?_, ?_⟩
  · rw [List.length_map, List.length_flatten]
    have hrep : grid.map List.length = List.replicate grid.length w := by
      rw [List.eq_replicate]
      exact ⟨by simp, fun b hb => by
        obtain ⟨row, hrow, hbl⟩ := List.mem_map.mp hb
        rw [← hbl]
        exact hw row hrow⟩
    rw [hrep, List.sum_replicate, smul_eq_mul, Nat.mul_comm]
  · rw [map_add_map_sub]
    apply List.map_congr_left
    intro cell hcell
    cases cell with
    | none => rfl
    | some id =>
      obtain ⟨t, hp, hnil, hsort⟩ := hcells id hcell
      simp only [cellBlockId, specCellId, hp]
      cases hb : t.blockIds with
      | nil => exact absurd hb hnil
      | cons b bs =>
        rw [min?_sorted_head b bs (hb ▸ hsort)]
        rfl
  · intro s hs
    obtain ⟨cell, hmem, hcell⟩ := List.mem_map.mp hs
    rw [← hcell]
    exact Nat.le_add_right _ _

/-- Witness for C3 at a 2-cell grid over a one-texture palette. -/
theorem generateBlueprint_roundtrip_witness :
    ∃ symbols,
      generateBlueprint [[some 0, none]]
        [⟨0, 0, 0, [some ⟨1, 2, 3⟩], [64], 1, false, [5, 9]⟩] =
        some (symbols, 2, 1) ∧
      symbols.length = 2 * 1 ∧
      symbols.map (fun s => s - UNICODE_PRIVATE_USE_START) =
        ([[some 0, none]] : ChoiceGrid).flatten.map
          (specCellId [⟨0, 0, 0, [some ⟨1, 2, 3⟩], [64], 1, false, [5, 9]⟩]) ∧
      ∀ s ∈ symbols, UNICODE_PRIVATE_USE_START ≤ s :=
  generateBlueprint_roundtrip [[some 0, none]]
    [⟨0, 0, 0, [some ⟨1, 2, 3⟩], [64], 1, false, [5, 9]⟩] 2
    (by simp) (by simp)
    (fun id hid => by
      simp at hid
      subst hid
      exact ⟨⟨0, 0, 0, [some ⟨1, 2, 3⟩], [64], 1, false, [5, 9]⟩, rfl,
        by simp, by simp⟩)

/-- C10: the encoder is total over malformed choices — a cell holding a
texture id with no palette entry, or whose entry has an empty `blockIds`
list, encodes as block id 0, the very symbol of a no-match cell, instead of
failing. -/
theorem generateBlueprint_malformed (grid : ChoiceGrid) (palette : List Texture)
    (w : ℕ) (hw : ∀ row ∈ grid, row.length = w) (hne : grid ≠ [])
    (y x : ℕ) (row : List (Option ℕ)) (id : ℕ)
    (hrow : grid.get? y = some row) (hcell : row.get? x = some (some id))
    (hmal : palette.get? id = none ∨
      ∃ t, palette.get? id = some t ∧ t.blockIds = []) :
    cellBlockId palette (some (some id)) = cellBlockId palette (some none) ∧
    ∃ symbols, generateBlueprint grid palette = some (symbols, w, grid.length) ∧
      symbols.get? (y * w + x) = some UNICODE_PRIVATE_USE_START := by
  have hzero : cellBlockId palette (some (some id)) = 0 := by
    rcases hmal with hnone | ⟨t, hp, hbl⟩
    · rw [List.get?_eq_getElem?] at hnone
      simp [cellBlockId, hnone]
    · rw [List.get?_eq_getElem?] at hp
      simp [cellBlockId, hp, hbl]
  refine ⟨by rw [hzero]; rfl, _,
    generateBlueprint_eq_flatten_map grid palette w hw hne, ?_⟩
  have hx : x < w := by
    obtain ⟨hlt, _⟩ := List.get?_eq_some.mp hcell
    rw [hw row (List.get?_mem hrow)] at hlt
    exact hlt
  have hflat : grid.flatten.get? (y * w + x) = some (some id) := by
    rw [flatten_get_uniform grid w hw y x row hrow hx]
    exact hcell
  rw [List.get?_map, hflat]
  show some (UNICODE_PRIVATE_USE_START + cellBlockId palette (some (some id))) =
    some UNICODE_PRIVATE_USE_START
  rw [hzero, Nat.add_zero]

/-- Witness for C10: a one-cell grid whose stored texture id has no entry in
an empty palette. -/
theorem generateBlueprint_malformed_witness :
    cellBlockId [] (some (some 3)) = cellBlockId [] (some none) ∧
    ∃ symbols, generateBlueprint [[some 3]] [] = some (symbols, 1, 1) ∧
      symbols.get? (0 * 1 + 0) = some UNICODE_PRIVATE_USE_START :=
  generateBlueprint_malformed [[some 3]] [] 1 (by simp) (by simp) 0 0
    [some 3] 3 rfl rfl (Or.inl rfl)

lemma faceStep_included (bd : BlockData) (st : IdxState) (face : String × ℕ) :
    (faceStep bd st face).includedBlockIds = st.includedBlockIds := by
  rw [faceStep]
  cases h1 : bd.texturePalette.get? face.2 with
  | none => rfl
  | some ti =>
    dsimp only
    cases h2 : st.textureCache.lookup ti with
    | some tid => rfl
    | none => rfl

lemma faceStep_palette (bd : BlockData) (st : IdxState) (face : String × ℕ) :
    (faceStep bd st face).texturePalette = st.texturePalette ∨
    ∃ ti, bd.texturePalette.get? face.2 = some ti ∧
      (faceStep bd st face).texturePalette =
        st.texturePalette ++ [⟨st.texturePalette.length, ti⟩] := by
  rw [faceStep]
  cases h1 : bd.texturePalette.get? face.2 with
  | none => exact Or.inl rfl
  | some ti =>
    dsimp only
    cases h2 : st.textureCache.lookup ti with
    | some tid => exact Or.inl rfl
    | none => exact Or.inr ⟨ti, rfl, rfl⟩

lemma foldl_faceStep_included (bd : BlockData) (l : List (String × ℕ)) :
    ∀ st : IdxState,
      (l.foldl (faceStep bd) st).includedBlockIds = st.includedBlockIds := by
  induction l with
  | nil => intro st; rfl
  | cons face fs ih =>
    intro st
    rw [List.foldl_cons, ih, faceStep_included]

lemma foldl_faceStep_palette (bd : BlockData) (l : List (String × ℕ)) :
    ∀ st : IdxState, ∀ e ∈ (l.foldl (faceStep bd) st).texturePalette,
      e ∈ st.texturePalette ∨
      ∃ f pi, (f, pi) ∈ l ∧ bd.texturePalette.get? pi = some e.ref := by
  induction l with
  | nil => exact fun st e he => Or.inl he
  | cons face fs ih =>
    intro st e he
    rw [List.foldl_cons] at he
    rcases ih (faceStep bd st face) e he with hmem | ⟨f, pi, hfp, hget⟩
    · rcases faceStep_palette bd st face with heq | ⟨ti, hget, heq⟩
      · rw [heq] at hmem
        exact Or.inl hmem
      · rw [heq] at hmem
        rcases List.mem_append.mp hmem with h | h
        · exact Or.inl h
        · right
          refine ⟨face.1, face.2, List.mem_cons_self face fs, ?_⟩
          have he' : e = ⟨st.texturePalette.length, ti⟩ := by simpa using h
          rw [he']
          exact hget
    · exact Or.inr ⟨f, pi, List.mem_cons_of_mem face hfp, hget⟩

lemma foldl_indexerStep_included (l : List (String × BlockData)) :
    ∀ st : IdxState, ∀ n ∈ (l.foldl indexerStep st).includedBlockIds,
      n ∈ st.includedBlockIds ∨
      ∃ s bd, (s, bd) ∈ l ∧ isExcluded s bd = false ∧ parseIntNat s = n := by
  induction l with
  | nil => exact fun st n hn => Or.inl hn
  | cons entry rest ih =>
    intro st n hn
    rw [List.foldl_cons] at hn
    cases hexc : isExcluded entry.1 entry.2 with
    | true =>
      rw [indexerStep, if_pos hexc] at hn
      rcases ih st n hn with h | ⟨s, bd, hm, he, hp⟩
      · exact Or.inl h
      · exact Or.inr ⟨s, bd, List.mem_cons_of_mem entry hm, he, hp⟩
    | false =>
      rw [indexerStep, if_neg (by rw [hexc]; exact Bool.false_ne_true)] at hn
      rcases ih _ n hn with h | ⟨s, bd, hm, he, hp⟩
      · rw [processFaces, foldl_faceStep_included] at h
        rcases List.mem_append.mp h with h' | h'
        · exact Or.inl h'
        · right
          refine ⟨entry.1, entry.2, List.mem_cons_self entry rest, hexc, ?_⟩
          exact (List.mem_singleton.mp h').symm
      · exact Or.inr ⟨s, bd, List.mem_cons_of_mem entry hm, he, hp⟩
    
lemma foldl_indexerStep_palette (l : List (String × BlockData)) :
    ∀ st : IdxState, ∀ e ∈ (l.foldl indexerStep st).texturePalette,
      e ∈ st.texturePalette ∨
      ∃ s bd f pi, (s, bd) ∈ l ∧ isExcluded s bd = false ∧
        (f, pi) ∈ bd.faceMap ∧ bd.texturePalette.get? pi = some e.ref := by
  induction l with
  | nil => exact fun st e he => Or.inl he
  | cons entry rest ih =>
    intro st e he
    rw [List.foldl_cons] at he
    cases hexc : isExcluded entry.1 entry.2 with
    | true =>
      rw [indexerStep, if_pos hexc] at he
      rcases ih st e he with h | ⟨s, bd, f, pi, hm, hx, hf, hg⟩
      · exact Or.inl h
      · exact Or.inr ⟨s, bd, f, pi, List.mem_cons_of_mem entry hm, hx, hf, hg⟩
    | false =>
      rw [indexerStep, if_neg (by rw [hexc]; exact Bool.false_ne_true)] at he
      rcases ih _ e he with h | ⟨s, bd, f, pi, hm, hx, hf, hg⟩
      · rw [processFaces] at h
        rcases foldl_faceStep_palette entry.2 entry.2.faceMap _ e h with
          h' | ⟨f, pi, hf, hg⟩
        · exact Or.inl h'
        · exact Or.inr ⟨entry.1, entry.2, f, pi, List.mem_cons_self entry rest,
            hexc, hf, hg⟩
      · exact Or.inr ⟨s, bd, f, pi, List.mem_cons_of_mem entry hm, hx, hf, hg⟩

lemma companion_mem (mapData : List (String × BlockData)) (n : ℕ)
    (hn : n ∈ companionIncludedBlockIds mapData) :
    ∃ s bd, (s, bd) ∈ mapData ∧ containsSlab bd.name = false ∧
      parseIntNat s = n := by
  rw [companionIncludedBlockIds] at hn
  have h1 := ((List.perm_insertionSort (· ≤ ·) _).mem_iff).mp hn
  rw [List.mem_dedup] at h1
  obtain ⟨entry, hmem, hval⟩ := List.mem_filterMap.mp h1
  by_cases hsl : containsSlab entry.2.name = true
  · rw [if_pos hsl] at hval
    exact absurd hval (by simp)
  · rw [if_neg hsl] at hval
    exact ⟨entry.1, entry.2, hmem, by simpa using hsl, Option.some.inj hval⟩

/-- C2 (amended): the indexer's `includedBlockIds` and texture palette are
generated only by blocks that are neither slab-named nor id-excluded (so an
excluded block never appears in the indexer output nor causes a new palette
texture, though its texture may still enter through another, non-excluded
block); the companion generator guarantees only the slab-name exclusion —
every id it emits comes from a block whose name lacks the slab marker, and
an id-excluded block with a non-slab name does appear in its output (see the
counterexample). -/
theorem exclusion_correctness (mapData : List (String × BlockData)) :
    (∀ n ∈ indexerIncludedBlockIds mapData,
      ∃ s bd, (s, bd) ∈ mapData ∧ isExcluded s bd = false ∧
        parseIntNat s = n) ∧
    (∀ e ∈ (runIndexer mapData).texturePalette,
      ∃ s bd f pi, (s, bd) ∈ mapData ∧ isExcluded s bd = false ∧
        (f, pi) ∈ bd.faceMap ∧ bd.texturePalette.get? pi = some e.ref) ∧
    (∀ n ∈ companionIncludedBlockIds mapData,
      ∃ s bd, (s, bd) ∈ mapData ∧ containsSlab bd.name = false ∧
        parseIntNat s = n) ∧
    ∀ s bd, (s, bd) ∈ mapData → isExcluded s bd = true →
      (∀ s' bd', (s', bd') ∈ mapData → parseIntNat s' = parseIntNat s →
        isExcluded s' bd' = true) →
      parseIntNat s ∉ indexerIncludedBlockIds mapData := by
  have hinc : ∀ n ∈ indexerIncludedBlockIds mapData,
      ∃ s bd, (s, bd) ∈ mapData ∧ isExcluded s bd = false ∧
        parseIntNat s = n := by
    intro n hn
    rw [indexerIncludedBlockIds] at hn
    have hn' := ((List.perm_insertionSort (· ≤ ·) _).mem_iff).mp hn
    rw [runIndexer] at hn'
    rcases foldl_indexerStep_included mapData ⟨[], [], []⟩ n hn' with h | h
    · simp at h
    · exact h
  refine ⟨hinc, ?_, companion_mem mapData, ?_⟩
  · intro e he
    rw [runIndexer] at he
    rcases foldl_indexerStep_palette mapData ⟨[], [], []⟩ e he with h | h
    · simp at h
    · exact h
  · intro s bd hmem hexc halias hin
    obtain ⟨s', bd', hmem', hexc', hp'⟩ := hinc (parseIntNat s) hin
    have hx := halias s' bd' hmem' hp'
    rw [hexc'] at hx
    exact Bool.false_ne_true hx

/-- Counterexample to C2 as frozen: block id "1" is in the fixed exclusion
set and its name "Stone" lacks the slab marker, yet the companion
included-block-ids generator (which applies only the slab filter) emits it. -/
theorem exclusion_companion_counterexample :
    "1" ∈ idsToSkip ∧ containsSlab "Stone" = false ∧
    1 ∈ companionIncludedBlockIds [("1", ⟨"Stone", [], []⟩)] := by
  refine ⟨by decide, by decide, ?_⟩
  decide

/-- Witness for C2 (amended) at a one-block map excluded by the id set. -/
theorem exclusion_correctness_witness :
    parseIntNat "1" ∉ indexerIncludedBlockIds [("1", ⟨"Stone", [], []⟩)] :=
  (exclusion_correctness [("1", ⟨"Stone", [], []⟩)]).2.2.2 "1" ⟨"Stone", [], []⟩
    (List.mem_singleton.mpr rfl) (by decide)
    (fun s' bd' hm _ => by
      rw [List.mem_singleton, Prod.mk.injEq] at hm
      obtain ⟨hs, hb⟩ := hm
      subst hs
      subst hb
      decide)
